import Mathlib

/-!
Verification of the Kotlin-extractor build orchestration script
(`src/java/kotlin-extractor/build.py`).

The script is a sequential build pipeline: it resolves version-specific
source overlays into a scratch copy of the source tree, optionally rewrites
one import prefix for the "embeddable" packaging kind, writes compiler
arguments to argument files, shells out to `kotlinc`/`javac`/`jar`, and
packages the result into one archive per build target.

The embedding below models:
  - Python's `str.replace` (leftmost, non-overlapping) on character lists;
  - the version registry (the `kotlin_plugin_versions` module is not part of
    the sources; it is modelled from the spec as an ordered list of
    comparable versions);
  - the overlay-resolution fold of `compile` (build.py lines 184-190);
  - `transform_to_embeddable` (lines 153-161);
  - `write_arg_file` (lines 83-88), `quote_for_batch` (53-59),
    `run_process` (62-81), `compile_to_dir` (90-116),
    `compile_to_jar` (119-132);
  - the top-level dispatch (lines 224-237) together with the
    startup `kotlinc` check (lines 44-47).

External processes are opaque collaborators: an environment assigns to each
command line an exit code and captured output, and the one file-creating
effect the script relies on (`jar cf OUTPUT` creating OUTPUT on success,
and only on success) is modelled explicitly.
-/

namespace KotlinBuild

/-! ## Python `str.replace`, on character lists

`replaceList p r s` replaces the leftmost, non-overlapping occurrences of
`p` in `s` by `r`, exactly as Python's `str.replace` does for a nonempty
pattern.  (The script only ever calls `replace` with nonempty patterns;
for an empty pattern this model is the identity.) -/

def replaceListAux (p r : List Char) : Nat → List Char → List Char
  | 0, l => l
  | _ + 1, [] => []
  | fuel + 1, c :: cs =>
    if p.isPrefixOf (c :: cs) ∧ p ≠ [] then
      r ++ replaceListAux p r fuel (List.drop (p.length - 1) cs)
    else
      c :: replaceListAux p r fuel cs

/-- Leftmost, non-overlapping replacement of `p` by `r`.  The fuel argument
only makes the recursion structural; `l.length` is always enough fuel. -/
def replaceList (p r l : List Char) : List Char :=
  replaceListAux p r l.length l

/-- Python `s.replace(pat, rep)` lifted to `String`. -/
def pyReplace (s pat rep : String) : String :=
  ⟨replaceList pat.data rep.data s.data⟩

/-! ## The version registry (modelled from the spec)

Modelled from the spec: the registry module `kotlin_plugin_versions` is not
among the sources.  Per the spec it provides "an ordered list of known
plugin versions and a way to map a version string to a comparable version
value"; a version "supports ordering comparisons (≤)".  We model a version
as a dotted numeric triple with lexicographic comparison; the registry
lists themselves stay parameters of every theorem. -/

structure Version where
  major : Nat
  minor : Nat
  patch : Nat
deriving DecidableEq, Repr

/-- The ordering comparison the overlay loop uses (`a_version.lessThanOrEqual(version)`). -/
def Version.lessThanOrEqual (a b : Version) : Bool :=
  if a.major ≠ b.major then a.major < b.major
  else if a.minor ≠ b.minor then a.minor < b.minor
  else a.patch ≤ b.patch

/-- Strict lexicographic comparison between versions. -/
def Version.lt (a b : Version) : Bool :=
  a.lessThanOrEqual b ∧ a ≠ b

/-! ## File trees and the overlay fold of `compile`

A `FileTree` is a flat association of relative paths to file contents.
`shutil.copytree(src, dst, dirs_exist_ok=True)` copies `src` over `dst`,
overwriting files of the same path, so a tree is read with a
"last entry wins" lookup and copying `d` over `acc` is `acc ++ d`. -/

abbrev FileTree := List (String × String)

/-- Lookup in a `FileTree`; the entry written last wins, matching
overwrite-on-conflict copying. -/
def lookupLast (t : FileTree) (p : String) : Option String :=
  t.foldl (fun acc e => if e.1 = p then some e.2 else acc) none

/-- The contribution of one registered version to the `this_version`
folder: its override subtree if it is `≤` the target version and its
override folder exists (`if a_version.lessThanOrEqual(version)` and
`if os.path.exists(d)` in build.py lines 185-188), and nothing otherwise. -/
def contrib (overrides : Version → Option FileTree) (target : Version)
    (r : Version) : FileTree :=
  if r.lessThanOrEqual target then
    match overrides r with
    | some d => d
    | none => []
  else []

/-- The overlay-resolution fold of `compile` (build.py lines 184-190):
starting from the freshly created, empty `this_version` folder, iterate
the registry's versions and copy (overwrite-on-conflict) the override
subtree of every version `≤` the target into it. -/
def overlayResult (versionsAsc : List Version)
    (overrides : Version → Option FileTree) (target : Version) : FileTree :=
  versionsAsc.foldl
    (fun acc r => acc ++ contrib overrides target r) []

/-! ## `transform_to_embeddable` (build.py lines 153-161)

For every source file, read it, replace the fixed import pattern, and write
it back.  A source file is modelled as a pair (path, content). -/

def importPattern : String := "import com.intellij"

def importReplacement : String := "import org.jetbrains.kotlin.com.intellij"

def transform_to_embeddable (files : List (String × String)) :
    List (String × String) :=
  files.map (fun f => (f.1, pyReplace f.2 importPattern importReplacement))

/-- The transform used by `compile_standalone` (build.py line 218) is
`lambda srcs: None`: it touches no file. -/
def standaloneTransform (files : List (String × String)) :
    List (String × String) :=
  files

/-! ## `write_arg_file` (build.py lines 83-88)

The file is written argument by argument; on the first argument containing
a single quote an exception is raised, after the earlier arguments have
already been written.  The model returns the full content on success and
the exception message together with the content written so far on failure. -/

def write_arg_file_go (acc : String) : List String → Except (String × String) String
  | [] => .ok acc
  | a :: rest =>
    if a.data.contains '\'' then
      .error ("Single quote in argument: " ++ a, acc)
    else
      write_arg_file_go (acc ++ "'" ++ pyReplace a "\\" "/" ++ "'\n") rest

def write_arg_file (args : List String) : Except (String × String) String :=
  write_arg_file_go "" args

/-- The content that ends up in the argument file, whether or not the
exception was raised. -/
def contentWritten : Except (String × String) String → String
  | .ok c => c
  | .error e => e.2

/-! ## `quote_for_batch`, `shlex.join` and `run_process` (build.py 53-81) -/

def quote_for_batch (arg : String) : Except String String :=
  if arg.data.contains ';' ∨ arg.data.contains '=' then
    if arg.data.contains '"' then
      .error "Need to quote something containing a quote"
    else .ok ("\"" ++ arg ++ "\"")
  else .ok arg

/-- Characters Python's `shlex.quote` considers safe: ASCII letters and
digits plus underscore, at-sign, percent, plus, equals, colon, comma, dot,
slash and dash. -/
def shlexSafeChar (c : Char) : Bool :=
  c.isAlphanum ∨ c = '_' ∨ c = '@' ∨ c = '%' ∨ c = '+' ∨ c = '=' ∨
  c = ':' ∨ c = ',' ∨ c = '.' ∨ c = '/' ∨ c = '-'

def shlex_quote (s : String) : String :=
  if s = "" then "''"
  else if s.data.all shlexSafeChar then s
  else "'" ++ pyReplace s "'" "'\"'\"'" ++ "'"

def shlex_join (cmd : List String) : String :=
  String.intercalate " " (cmd.map shlex_quote)

/-- The outcome of one external process invocation. -/
structure ExecOutcome where
  exitCode : Nat
  stdout : String
  stderr : String

/-- The execution environment: the platform, the working directory, and the
behaviour of every external command (an opaque collaborator). -/
structure Env where
  isWindows : Bool
  cwd : String
  run : List String → ExecOutcome

/-- `os.path.pathsep`. -/
def Env.pathsep (env : Env) : String :=
  if env.isWindows then ";" else ":"

/-- The command line `run_process` reports on failure: on Windows, the
arguments converted by `quote_for_batch` and joined with spaces (which may
itself raise); elsewhere `shlex.join(cmd)`. -/
def shellCmdLine (env : Env) (cmd : List String) : Except String String :=
  if env.isWindows then
    (cmd.mapM quote_for_batch).map (String.intercalate " ")
  else
    .ok (shlex_join cmd)

/-- A failure escaping `run_process`. -/
inductive RunFailure where
  | batchQuote (msg : String)
  | called (report : List String)
deriving DecidableEq, Repr

/-- `run_process` (build.py lines 62-81).  On a nonzero exit the handler
prints, to stderr, the working directory, the failing command line and —
when capture was requested — the captured stdout and stderr, then
re-raises; the report lines are returned inside the error. -/
def run_process (env : Env) (cmd : List String) (captureOutput : Bool) :
    Except RunFailure ExecOutcome :=
  match shellCmdLine env cmd with
  | .error m => .error (.batchQuote m)
  | .ok shellCmd =>
    let out := env.run cmd
    if out.exitCode = 0 then
      .ok out
    else
      .error (.called
        (["In: " ++ env.cwd, "Command failed: " ++ shellCmd] ++
         (if captureOutput then
            ["stdout output:\n" ++ out.stdout,
             "stderr output:\n" ++ out.stderr]
          else [])))

/-! ## The compile pipeline state

Only the filesystem facts the claims are about are tracked: the files the
script itself writes, the directories it creates and removes, and the
archive files created by successful `jar cf` invocations.  External
compilers' class-file outputs land under the class directory, which is
deleted before the pipeline returns, and are not tracked.  A failing
invocation creates no archive (`jar cf OUTPUT` creates `OUTPUT` only on
success; this is the invocation contract of the external archiver). -/

structure BuildState where
  files : FileTree
  dirs : List String
  archives : List String
deriving DecidableEq, Repr

def BuildState.writeFile (st : BuildState) (p c : String) : BuildState :=
  { st with files := st.files ++ [(p, c)] }

/-- `shutil.rmtree` on a directory the state tracks. -/
def BuildState.rmtree (st : BuildState) (d : String) : BuildState :=
  { st with dirs := st.dirs.filter (fun x => x ≠ d) }

/-- Lines 122-124 of build.py: remove the class directory if it exists,
then create it. -/
def BuildState.mkdirClean (st : BuildState) (d : String) : BuildState :=
  { st with dirs := st.dirs.filter (fun x => x ≠ d) ++ [d] }

/-- A failure escaping the pipeline: a `write_arg_file` exception, or a
failure from `run_process`. -/
inductive BuildError where
  | argFile (msg : String)
  | batchQuote (msg : String)
  | called (report : List String)
deriving DecidableEq, Repr

def BuildError.ofRun : RunFailure → BuildError
  | .batchQuote m => .batchQuote m
  | .called r => .called r

/-- The `kotlin_args` list of `compile_to_dir` (build.py lines 93-102). -/
def kotlin_args (languageVersion output classpath : String)
    (srcs : List String) : List String :=
  ["-Werror",
   "-opt-in=kotlin.RequiresOptIn",
   "-opt-in=org.jetbrains.kotlin.ir.symbols.IrSymbolInternals",
   "-d", output,
   "-module-name", "codeql-kotlin-extractor",
   "-Xsuppress-version-warnings",
   "-language-version", languageVersion,
   "-no-reflect", "-no-stdlib",
   "-jvm-target", "1.8",
   "-classpath", classpath] ++ srcs

/-- The `java_args` list of `compile_to_dir` (build.py lines 111-114). -/
def java_args (env : Env) (output classpath java_classpath : String)
    (srcs : List String) : List String :=
  ["-d", output,
   "-source", "8", "-target", "8",
   "-classpath",
   String.intercalate env.pathsep [output, classpath, java_classpath]] ++
  srcs.filter (fun s => s.endsWith ".java")

/-- `compile_to_dir` (build.py lines 90-116): write the Kotlin argument
file, run `kotlinc` on it, write the Java argument file, run `javac` on
it.  `kotlinc` is the path found on `PATH` at startup; `javac` is the
constant `'javac'` (line 49). -/
def compile_to_dir (env : Env) (kotlinc : String) (build_dir : String)
    (srcs : List String) (languageVersion classpath java_classpath output : String)
    (st : BuildState) : Except (BuildError × BuildState) BuildState :=
  match write_arg_file (kotlin_args languageVersion output classpath srcs) with
  | .error e => .error (.argFile e.1, st.writeFile (build_dir ++ "/kotlin.args") e.2)
  | .ok content =>
    let st := st.writeFile (build_dir ++ "/kotlin.args") content
    match run_process env [kotlinc, "-J-Xmx2G", "@" ++ build_dir ++ "/kotlin.args"] false with
    | .error e => .error (.ofRun e, st)
    | .ok _ =>
      match write_arg_file (java_args env output classpath java_classpath srcs) with
      | .error e => .error (.argFile e.1, st.writeFile (build_dir ++ "/java.args") e.2)
      | .ok content =>
        let st := st.writeFile (build_dir ++ "/java.args") content
        match run_process env ["javac", "@" ++ build_dir ++ "/java.args"] false with
        | .error e => .error (.ofRun e, st)
        | .ok _ => .ok st

/-- `compile_to_jar` (build.py lines 119-132): recreate the class
directory, compile into it, run `jar cf` packaging the class directory's
contents plus the two fixed resource paths, record the archive `jar`
created, and delete the class directory.  On success it returns the final
state together with the `jar` command line that was run. -/
def compile_to_jar (env : Env) (kotlinc : String)
    (build_dir tmp_src_dir : String) (srcs : List String)
    (languageVersion classpath java_classpath output : String)
    (st : BuildState) :
    Except (BuildError × BuildState) (BuildState × List String) :=
  let class_dir := build_dir ++ "/classes"
  let st := st.mkdirClean class_dir
  match compile_to_dir env kotlinc build_dir srcs languageVersion classpath
      java_classpath class_dir st with
  | .error e => .error e
  | .ok st =>
    let jarCmd := ["jar", "cf", output,
                   "-C", class_dir, ".",
                   "-C", tmp_src_dir ++ "/main/resources", "META-INF",
                   "-C", tmp_src_dir ++ "/main/resources", "com/github/codeql/extractor.name"]
    match run_process env jarCmd false with
    | .error e => .error (.ofRun e, st)
    | .ok _ =>
      let st := { st with archives := st.archives ++ [output] }
      .ok (st.rmtree class_dir, jarCmd)

/-- Whether an `Except` is an error. -/
def isErr : Except (BuildError × BuildState) (BuildState × List String) → Bool
  | .error _ => true
  | .ok _ => false

/-- The archives present after `compile_to_jar`, on either outcome. -/
def archivesAfter :
    Except (BuildError × BuildState) (BuildState × List String) → List String
  | .error e => e.2.archives
  | .ok r => r.1.archives

/-- The archives present after `compile_to_dir`, on either outcome. -/
def dirArchives : Except (BuildError × BuildState) BuildState → List String
  | .error e => e.2.archives
  | .ok st => st.archives

/-- The `extractor.name` marker written by `compile` (build.py lines
177-180): a file under the scratch resources directory whose content is
the name of the output artifact. -/
def write_extractor_name (st : BuildState) (tmp_src_dir output : String) :
    BuildState :=
  st.writeFile
    (tmp_src_dir ++ "/main/resources/com/github/codeql/extractor.name") output

/-! ## The top-level dispatch (build.py lines 224-237)

The command-line arguments after `argparse`, and what the dispatch decides
to do.  The registry data (`kotlin_plugin_versions.many_versions` and
`get_single_version()`) is not among the sources and stays a parameter. -/

structure Args where
  dependencies : String
  many : Bool
  single_version : Option String
  single_version_embeddable : Bool
deriving DecidableEq, Repr

inductive PackagingKind where
  | standalone
  | embeddable
deriving DecidableEq, Repr

/-- The archive name of a build target (`'codeql-extractor-kotlin-standalone-%s.jar' % version`
on line 219, `'codeql-extractor-kotlin-embeddable-%s.jar' % version` on line 209). -/
def outputName : PackagingKind → String → String
  | .standalone, v => "codeql-extractor-kotlin-standalone-" ++ v ++ ".jar"
  | .embeddable, v => "codeql-extractor-kotlin-embeddable-" ++ v ++ ".jar"

/-- The scratch build directory of a build target (`'build_standalone_' + version`
on line 220, `'build_embeddable_' + version` on line 210). -/
def buildDirName : PackagingKind → String → String
  | .standalone, v => "build_standalone_" ++ v
  | .embeddable, v => "build_embeddable_" ++ v

/-- What the `if`/`elif` chain on lines 224-237 decides: either a sequence
of build targets to run, in order, or a usage error with its message and
exit code. -/
inductive MainOutcome where
  | builds (targets : List (String × PackagingKind))
  | usage (msg : String) (exitCode : Nat)
deriving DecidableEq, Repr

/-- The `elif` chain of build.py lines 229-237, taken when
`args.single_version` is falsy (the flag is absent, or it is the empty
string — Python truthiness). -/
def dispatchFallthrough (many_versions : List String)
    (single_version_default : String) (args : Args) : MainOutcome :=
  if args.single_version_embeddable then
    .usage "--single-version-embeddable requires --single-version" 1
  else if args.many then
    .builds (many_versions.flatMap
      (fun v => [(v, .standalone), (v, .embeddable)]))
  else
    .builds [(single_version_default, .standalone)]

/-- The dispatch of build.py lines 224-237.  `if args.single_version:` on
line 224 tests Python truthiness: it is false both when the flag is absent
(`None`) and when it is the empty string, and in either case the program
falls through to the `elif` chain. -/
def dispatch (many_versions : List String) (single_version_default : String)
    (args : Args) : MainOutcome :=
  match args.single_version with
  | some v =>
    if v ≠ "" then
      if args.single_version_embeddable then .builds [(v, .embeddable)]
      else .builds [(v, .standalone)]
    else dispatchFallthrough many_versions single_version_default args
  | none => dispatchFallthrough many_versions single_version_default args

/-- The archive files the decided builds would produce. -/
def outcomeArchives : MainOutcome → List String
  | .builds ts => ts.map (fun t => outputName t.2 t.1)
  | .usage _ _ => []

/-- The scratch directories the decided builds would create. -/
def outcomeScratchDirs : MainOutcome → List String
  | .builds ts => ts.map (fun t => buildDirName t.2 t.1)
  | .usage _ _ => []

/-- Program startup (build.py lines 44-47 and 224-237): `shutil.which('kotlinc')`
runs before anything else; if it finds nothing the program prints an error
and exits with status 1, and the dispatch is never reached. -/
inductive ProgOutcome where
  | earlyExit (msg : String) (exitCode : Nat)
  | proceed (m : MainOutcome)
deriving DecidableEq, Repr

def program (which_kotlinc : Option String) (many_versions : List String)
    (single_version_default : String) (args : Args) : ProgOutcome :=
  match which_kotlinc with
  | none =>
    .earlyExit "Cannot build the Kotlin extractor: no kotlinc found on your PATH" 1
  | some _ => .proceed (dispatch many_versions single_version_default args)

def progArchives : ProgOutcome → List String
  | .earlyExit _ _ => []
  | .proceed m => outcomeArchives m

def progScratchDirs : ProgOutcome → List String
  | .earlyExit _ _ => []
  | .proceed m => outcomeScratchDirs m

/-! ## Small observation helpers used by the statements -/

/-- Whether a string is free of backslashes. -/
def noBackslash (s : String) : Bool :=
  s.data.all (fun c => c != '\\')

/-- The lines of a character list, splitting at every newline (the final
element is what follows the last newline; a file ending in a newline thus
ends in an empty line). -/
def splitNl : List Char → List (List Char)
  | [] => [[]]
  | c :: cs =>
    if c = '\n' then [] :: splitNl cs
    else
      match splitNl cs with
      | [] => [[c]]
      | l :: ls => (c :: l) :: ls

/-- Left-biased choice on optional lookup results. -/
def optOr (a b : Option String) : Option String :=
  match a with
  | some c => some c
  | none => b

/-- The name pair produced per version by `--many`. -/
def namesOf (w : String) : List String :=
  [outputName .standalone w, outputName .embeddable w]

/-! # Lemmas

## Unfolding equations for `replaceList` -/

lemma replaceListAux_fuel (p r : List Char) :
    ∀ (fuel fuel' : Nat) (l : List Char), l.length ≤ fuel → l.length ≤ fuel' →
      replaceListAux p r fuel l = replaceListAux p r fuel' l := by
  intro fuel
  induction fuel with
  | zero =>
    intro fuel' l hl _
    have : l = [] := List.eq_nil_of_length_eq_zero (Nat.le_zero.mp hl)
    subst this
    cases fuel' <;> rfl
  | succ f ih =>
    intro fuel' l hl hl'
    cases l with
    | nil => cases fuel' <;> rfl
    | cons c cs =>
      cases fuel' with
      | zero => simp at hl'
      | succ f' =>
        simp only [replaceListAux]
        have hcs : cs.length ≤ f := by
          simp only [List.length_cons] at hl; omega
        have hcs' : cs.length ≤ f' := by
          simp only [List.length_cons] at hl'; omega
        by_cases h : p.isPrefixOf (c :: cs) ∧ p ≠ []
        · rw [if_pos h, if_pos h]
          have hd : (List.drop (p.length - 1) cs).length ≤ cs.length := by
            simp [List.length_drop]
          rw [ih f' _ (le_trans hd hcs) (le_trans hd hcs')]
        · rw [if_neg h, if_neg h]
          rw [ih f' _ hcs hcs']

lemma replaceList_nil (p r : List Char) : replaceList p r [] = [] := rfl

lemma replaceList_cons (p r : List Char) (c : Char) (cs : List Char) :
    replaceList p r (c :: cs) =
      if p.isPrefixOf (c :: cs) ∧ p ≠ [] then
        r ++ replaceList p r (List.drop (p.length - 1) cs)
      else
        c :: replaceList p r cs := by
  show replaceListAux p r (cs.length + 1) (c :: cs) = _
  simp only [replaceListAux]
  by_cases h : p.isPrefixOf (c :: cs) ∧ p ≠ []
  · rw [if_pos h, if_pos h]
    congr 1
    exact replaceListAux_fuel p r cs.length _ _ (by simp [List.length_drop]) le_rfl
  · rw [if_neg h, if_neg h]
    rfl

/-! ## Backslash normalization -/

lemma replace_backslash_all (l : List Char) :
    (replaceList [ '\\' ] [ '/' ] l).all (fun c => c != '\\') = true := by
  induction l with
  | nil => rfl
  | cons c cs ih =>
    rw [replaceList_cons]
    by_cases h : c = '\\'
    · subst h
      rw [if_pos ⟨by simp [List.isPrefixOf], by simp⟩]
      simpa using ih
    · rw [if_neg (by simp [List.isPrefixOf, Ne.symm h])]
      simpa [h] using ih

lemma noBackslash_append (a b : String) :
    noBackslash (a ++ b) = (noBackslash a && noBackslash b) := by
  simp [noBackslash, String.data_append, List.all_append]

lemma noBackslash_pyReplace (a : String) :
    noBackslash (pyReplace a "\\" "/") = true := by
  have h1 : "\\".data = [ '\\' ] := rfl
  have h2 : "/".data = [ '/' ] := rfl
  show (replaceList "\\".data "/".data a.data).all (fun c => c != '\\') = true
  rw [h1, h2]
  exact replace_backslash_all a.data

lemma write_go_noBackslash (args : List String) : ∀ acc : String,
    noBackslash acc = true →
    noBackslash (contentWritten (write_arg_file_go acc args)) = true := by
  induction args with
  | nil => intro acc h; exact h
  | cons a rest ih =>
    intro acc h
    simp only [write_arg_file_go]
    by_cases hq : a.data.contains '\''
    · rw [if_pos hq]
      exact h
    · rw [if_neg hq]
      apply ih
      rw [noBackslash_append, noBackslash_append, noBackslash_append]
      rw [h, noBackslash_pyReplace]
      decide

/-! ## Lines of the argument file -/

lemma contains_false_all_ne (l : List Char) (c : Char)
    (h : l.contains c = false) : l.all (fun x => x != c) = true := by
  induction l with
  | nil => rfl
  | cons d t ih =>
    simp only [List.contains, List.elem_cons] at h ih
    rw [List.all_cons]
    by_cases hdc : c = d
    · subst hdc
      simp at h
    · have hdc' : (c == d) = false := beq_eq_false_iff_ne.mpr hdc
      rw [hdc'] at h
      simp only [ih h, Bool.and_true]
      simpa using Ne.symm hdc

lemma replace_backslash_no_newline (l : List Char)
    (h : l.all (fun c => c != '\n') = true) :
    (replaceList [ '\\' ] [ '/' ] l).all (fun c => c != '\n') = true := by
  induction l with
  | nil => rfl
  | cons c cs ih =>
    rw [List.all_cons, Bool.and_eq_true] at h
    obtain ⟨hc, hcs⟩ := h
    rw [replaceList_cons]
    by_cases hb : c = '\\'
    · subst hb
      rw [if_pos ⟨by simp [List.isPrefixOf], by simp⟩]
      have hdrop : List.drop (([ '\\' ] : List Char).length - 1) cs = cs := by simp
      rw [hdrop, List.all_append]
      simp [ih hcs]
    · rw [if_neg (by simp [List.isPrefixOf, Ne.symm hb])]
      rw [List.all_cons]
      simp [hc, ih hcs]

lemma splitNl_append_newline (l r : List Char)
    (hl : l.all (fun c => c != '\n') = true) :
    splitNl (l ++ '\n' :: r) = l :: splitNl r := by
  induction l with
  | nil => simp [splitNl]
  | cons c cs ih =>
    rw [List.all_cons, Bool.and_eq_true] at hl
    obtain ⟨hc, hcs⟩ := hl
    have hc' : ¬ c = '\n' := by simpa using hc
    simp only [List.cons_append, splitNl, if_neg hc', List.append_eq]
    rw [ih hcs]

lemma write_go_ok (args : List String) :
    ∀ acc, (∀ a ∈ args, a.data.contains '\'' = false) →
      write_arg_file_go acc args =
        .ok (acc ++ args.foldr
          (fun a acc => "'" ++ pyReplace a "\\" "/" ++ "'\n" ++ acc) "") := by
  induction args with
  | nil =>
    intro acc _
    simp [write_arg_file_go]
  | cons a rest ih =>
    intro acc h
    have ha : a.data.contains '\'' = false := h a (List.mem_cons_self a rest)
    have hrest : ∀ b ∈ rest, b.data.contains '\'' = false :=
      fun b hb => h b (List.mem_cons_of_mem a hb)
    simp only [write_arg_file_go, ha, Bool.false_eq_true, if_false]
    rw [ih _ hrest]
    simp [String.append_assoc]

lemma write_go_error (l : List String) :
    ∀ acc (a : String) (r : List String),
      (∀ b ∈ l, b.data.contains '\'' = false) → a.data.contains '\'' = true →
      write_arg_file_go acc (l ++ a :: r) =
        .error ("Single quote in argument: " ++ a,
          acc ++ l.foldr
            (fun b acc => "'" ++ pyReplace b "\\" "/" ++ "'\n" ++ acc) "") := by
  induction l with
  | nil =>
    intro acc a r _ ha
    show write_arg_file_go acc (a :: r) = _
    simp only [write_arg_file_go, ha, if_true]
    rw [List.foldr_nil, String.append_empty]
  | cons b t ih =>
    intro acc a r h ha
    have hb : b.data.contains '\'' = false := h b (List.mem_cons_self b t)
    have ht : ∀ x ∈ t, x.data.contains '\'' = false :=
      fun x hx => h x (List.mem_cons_of_mem b hx)
    show write_arg_file_go acc (b :: (t ++ a :: r)) = _
    simp only [write_arg_file_go, hb, Bool.false_eq_true, if_false]
    rw [ih _ a r ht ha]
    simp [String.append_assoc]

lemma quoted_line_data (a F : String) :
    ("'" ++ a ++ "'\n" ++ F).data =
      ("'" ++ a ++ "'").data ++ '\n' :: F.data := by
  simp [String.data_append]

lemma lines_of_content (args : List String)
    (hn : ∀ a ∈ args, a.data.contains '\n' = false) :
    splitNl (args.foldr
        (fun a acc => "'" ++ pyReplace a "\\" "/" ++ "'\n" ++ acc) "").data =
      args.map (fun a => ("'" ++ pyReplace a "\\" "/" ++ "'").data) ++ [[]] := by
  induction args with
  | nil => rfl
  | cons a rest ih =>
    have hna : a.data.contains '\n' = false := hn a (List.mem_cons_self a rest)
    have hnrest : ∀ b ∈ rest, b.data.contains '\n' = false :=
      fun b hb => hn b (List.mem_cons_of_mem a hb)
    rw [List.foldr_cons, quoted_line_data]
    have hq : (("'" ++ pyReplace a "\\" "/" ++ "'").data).all
        (fun c => c != '\n') = true := by
      have h2 : ((pyReplace a "\\" "/").data).all (fun c => c != '\n') = true := by
        show (replaceList "\\".data "/".data a.data).all (fun c => c != '\n') = true
        rw [show "\\".data = [ '\\' ] from rfl, show "/".data = [ '/' ] from rfl]
        exact replace_backslash_no_newline a.data
          (contains_false_all_ne a.data '\n' hna)
      simp only [String.data_append, List.all_append, h2, Bool.and_true,
        Bool.true_and]
      decide
    rw [splitNl_append_newline _ _ hq, ih hnrest]
    rfl

/-! ## The overlay fold -/

lemma lookupLast_foldl (p : String) (B : FileTree) : ∀ acc : Option String,
    B.foldl (fun acc e => if e.1 = p then some e.2 else acc) acc =
      optOr (lookupLast B p) acc := by
  induction B with
  | nil => intro acc; rfl
  | cons e B ih =>
    intro acc
    show B.foldl _ (if e.1 = p then some e.2 else acc) = _
    rw [ih]
    have hB : lookupLast (e :: B) p =
        B.foldl (fun acc e => if e.1 = p then some e.2 else acc)
          (if e.1 = p then some e.2 else none) := rfl
    rw [hB, ih]
    cases h : lookupLast B p with
    | some c => rfl
    | none =>
      by_cases he : e.1 = p
      · rw [if_pos he, if_pos he]
        rfl
      · rw [if_neg he, if_neg he]
        rfl

lemma lookupLast_append (p : String) (A B : FileTree) :
    lookupLast (A ++ B) p = optOr (lookupLast B p) (lookupLast A p) := by
  show (A ++ B).foldl _ none = _
  rw [List.foldl_append]
  exact lookupLast_foldl p B _

lemma overlayResult_go (overrides : Version → Option FileTree)
    (target : Version) (l : List Version) : ∀ acc : FileTree,
    l.foldl (fun acc r => acc ++ contrib overrides target r) acc =
      acc ++ (l.map (contrib overrides target)).flatten := by
  induction l with
  | nil => intro acc; simp
  | cons r t ih =>
    intro acc
    show t.foldl _ (acc ++ contrib overrides target r) = _
    rw [ih]
    simp [List.append_assoc]

lemma overlayResult_eq_flatten (versionsAsc : List Version)
    (overrides : Version → Option FileTree) (target : Version) :
    overlayResult versionsAsc overrides target =
      (versionsAsc.map (contrib overrides target)).flatten := by
  show versionsAsc.foldl _ [] = _
  rw [overlayResult_go]
  rfl

lemma lookupLast_contrib_some (overrides : Version → Option FileTree)
    (target r : Version) (p : String) (c : String)
    (h : lookupLast (contrib overrides target r) p = some c) :
    r.lessThanOrEqual target = true ∧
      ∃ d, overrides r = some d ∧ lookupLast d p = some c := by
  by_cases hle : r.lessThanOrEqual target
  · refine ⟨hle, ?_⟩
    cases hov : overrides r with
    | some d =>
      refine ⟨d, rfl, ?_⟩
      rw [contrib, if_pos hle, hov] at h
      exact h
    | none =>
      rw [contrib, if_pos hle, hov] at h
      cases h
  · rw [contrib, if_neg hle] at h
    cases h

lemma lookupLast_flatten_none (p : String) (L : List FileTree)
    (h : ∀ t ∈ L, lookupLast t p = none) :
    lookupLast L.flatten p = none := by
  induction L with
  | nil => rfl
  | cons t L ih =>
    rw [List.flatten_cons, lookupLast_append,
      ih (fun x hx => h x (List.mem_cons_of_mem t hx)),
      h t (List.mem_cons_self t L)]
    rfl

lemma overlay_filter (l : List Version) (ov : Version → Option FileTree)
    (v : Version) :
    overlayResult l ov v =
      overlayResult (l.filter (fun r => r.lessThanOrEqual v)) ov v := by
  rw [overlayResult_eq_flatten, overlayResult_eq_flatten]
  induction l with
  | nil => rfl
  | cons r t ih =>
    by_cases h : r.lessThanOrEqual v
    · rw [List.filter_cons, if_pos (by simpa using h), List.map_cons,
        List.map_cons, List.flatten_cons, List.flatten_cons, ih]
    · rw [List.filter_cons, if_neg (by simpa using h), List.map_cons,
        List.flatten_cons, ih]
      have hc : contrib ov v r = [] := by
        rw [contrib, if_neg h]
      rw [hc, List.nil_append]

lemma overlay_provenance (l : List Version) (ov : Version → Option FileTree)
    (v : Version) (p c : String)
    (h : lookupLast (overlayResult l ov v) p = some c) :
    ∃ r ∈ l, r.lessThanOrEqual v = true ∧
      ∃ d, ov r = some d ∧ lookupLast d p = some c := by
  rw [overlayResult_eq_flatten] at h
  induction l with
  | nil => cases h
  | cons r t ih =>
    rw [List.map_cons, List.flatten_cons, lookupLast_append] at h
    cases ht : lookupLast ((t.map (contrib ov v)).flatten) p with
    | some c' =>
      rw [ht] at h
      have hcc : c' = c := by
        simpa [optOr] using h
      obtain ⟨r', hr', hle, d, hov, hd⟩ := ih (hcc ▸ ht)
      exact ⟨r', List.mem_cons_of_mem r hr', hle, d, hov, hd⟩
    | none =>
      rw [ht] at h
      have hco : lookupLast (contrib ov v r) p = some c := by
        simpa [optOr] using h
      obtain ⟨hle, d, hov, hd⟩ := lookupLast_contrib_some ov v r p c hco
      exact ⟨r, List.mem_cons_self r t, hle, d, hov, hd⟩

lemma overlay_presence (l : List Version) (ov : Version → Option FileTree)
    (v : Version) (r : Version) (d : FileTree) (p : String)
    (hr : r ∈ l) (hle : r.lessThanOrEqual v = true) (hov : ov r = some d)
    (hd : (lookupLast d p).isSome = true) :
    (lookupLast (overlayResult l ov v) p).isSome = true := by
  rw [overlayResult_eq_flatten]
  induction l with
  | nil => cases hr
  | cons r₀ t ih =>
    rw [List.map_cons, List.flatten_cons, lookupLast_append]
    cases ht : lookupLast ((t.map (contrib ov v)).flatten) p with
    | some c => rfl
    | none =>
      rcases List.mem_cons.mp hr with hrr | hrt
      · subst hrr
        have hco : lookupLast (contrib ov v r) p = lookupLast d p := by
          rw [contrib, if_pos hle, hov]
        simpa [optOr, hco] using hd
      · have := ih hrt
        rw [ht] at this
        cases this

lemma overlay_last_wins_pos (l₁ l₂ : List Version)
    (ov : Version → Option FileTree) (v : Version) (r : Version)
    (d : FileTree) (p c : String)
    (hle : r.lessThanOrEqual v = true) (hov : ov r = some d)
    (hd : lookupLast d p = some c)
    (hnone : ∀ r' ∈ l₂, r'.lessThanOrEqual v = true →
      ∀ d', ov r' = some d' → lookupLast d' p = none) :
    lookupLast (overlayResult (l₁ ++ r :: l₂) ov v) p = some c := by
  rw [overlayResult_eq_flatten, List.map_append, List.flatten_append,
    lookupLast_append, List.map_cons, List.flatten_cons, lookupLast_append]
  have h2 : lookupLast ((l₂.map (contrib ov v)).flatten) p = none := by
    apply lookupLast_flatten_none
    intro t ht
    obtain ⟨r', hr', rfl⟩ := List.mem_map.mp ht
    by_cases hle' : r'.lessThanOrEqual v
    · cases hov' : ov r' with
      | some d' =>
        rw [contrib, if_pos hle', hov']
        exact hnone r' hr' hle' d' hov'
      | none =>
        rw [contrib, if_pos hle', hov']
        rfl
    · rw [contrib, if_neg hle']
      rfl
  have hc : lookupLast (contrib ov v r) p = some c := by
    rw [contrib, if_pos hle, hov]
    exact hd
  rw [h2, hc]
  rfl

/-! ## Archive names are pairwise distinct across targets -/

lemma wrapName_inj (A J v w : String) (h : A ++ v ++ J = A ++ w ++ J) :
    v = w := by
  have hd := congrArg String.data h
  rw [String.data_append, String.data_append, String.data_append,
    String.data_append] at hd
  have h2 := List.append_cancel_right hd
  have h3 := List.append_cancel_left h2
  cases v; cases w
  exact congrArg String.mk h3

lemma outputName_inj (k : PackagingKind) (v w : String)
    (h : outputName k v = outputName k w) : v = w := by
  cases k <;> exact wrapName_inj _ _ _ _ h

lemma outputName_sta_ne_emb (v w : String) :
    outputName .standalone v ≠ outputName .embeddable w := by
  intro h
  have hd := congrArg String.data h
  simp only [outputName, String.data_append] at hd
  rw [List.append_assoc, List.append_assoc] at hd
  have h25 := congrArg (List.take 25) hd
  rw [List.take_append_of_le_length (by decide),
    List.take_append_of_le_length (by decide)] at h25
  exact absurd h25 (by decide)

lemma outputName_beq_cross (v w : String) :
    (outputName .standalone v == outputName .embeddable w) = false ∧
    (outputName .embeddable w == outputName .standalone v) = false :=
  ⟨beq_eq_false_iff_ne.mpr (outputName_sta_ne_emb v w),
   beq_eq_false_iff_ne.mpr (fun e => outputName_sta_ne_emb v w e.symm)⟩

lemma outputName_beq_same (k : PackagingKind) (v w : String) (h : ¬ v = w) :
    (outputName k v == outputName k w) = false ∧
    (outputName k w == outputName k v) = false :=
  ⟨beq_eq_false_iff_ne.mpr (fun e => h (outputName_inj _ _ _ e)),
   beq_eq_false_iff_ne.mpr (fun e => h (outputName_inj _ _ _ e).symm)⟩

lemma count_names_zero (v : String) (l : List String) (hv : v ∉ l) :
    ((l.flatMap namesOf).count (outputName .standalone v) = 0) ∧
    ((l.flatMap namesOf).count (outputName .embeddable v) = 0) := by
  induction l with
  | nil => simp
  | cons w t ih =>
    have hvw : ¬ v = w := fun e => hv (e ▸ List.mem_cons_self w t)
    have hvt : v ∉ t := fun e => hv (List.mem_cons_of_mem w e)
    obtain ⟨ih1, ih2⟩ := ih hvt
    obtain ⟨c1, c2⟩ := outputName_beq_cross v w
    obtain ⟨c3, c4⟩ := outputName_beq_cross w v
    obtain ⟨s1, s2⟩ := outputName_beq_same .standalone v w hvw
    obtain ⟨e1, e2⟩ := outputName_beq_same .embeddable v w hvw
    simp [namesOf, List.count_cons, c1, c2, c3, c4, s1, s2, e1, e2, ih1, ih2]

lemma count_names_one (v : String) (l : List String) (hnd : l.Nodup)
    (hv : v ∈ l) :
    ((l.flatMap namesOf).count (outputName .standalone v) = 1) ∧
    ((l.flatMap namesOf).count (outputName .embeddable v) = 1) := by
  induction l with
  | nil => cases hv
  | cons w t ih =>
    obtain ⟨hwt, hndt⟩ := List.nodup_cons.mp hnd
    obtain ⟨c1, c2⟩ := outputName_beq_cross v w
    obtain ⟨c3, c4⟩ := outputName_beq_cross w v
    rcases List.mem_cons.mp hv with hvw | hvt
    · subst hvw
      obtain ⟨z1, z2⟩ := count_names_zero v t hwt
      simp [namesOf, List.count_cons, c1, c2, c3, c4, z1, z2]
    · have hvw : ¬ v = w := fun e => hwt (e ▸ hvt)
      obtain ⟨s1, s2⟩ := outputName_beq_same .standalone v w hvw
      obtain ⟨e1, e2⟩ := outputName_beq_same .embeddable v w hvw
      obtain ⟨ih1, ih2⟩ := ih hndt hvt
      simp [namesOf, List.count_cons, c1, c2, c3, c4, s1, s2, e1, e2, ih1, ih2]

/-! ## No occurrence of the import pattern survives the rewrite

`str.replace` replaces the leftmost, non-overlapping occurrences.  In
general that can leave occurrences behind (replacing `ab` by `a` in `abb`
leaves an `ab`); for the concrete pattern and replacement of
`transform_to_embeddable` no occurrence can straddle a replacement
boundary, which the next lemmas establish from three decidable facts about
the two concrete strings. -/

lemma infix_cons_lift (a : Char) (l₁ l₂ : List Char) (h : l₁ <:+: l₂) :
    l₁ <:+: a :: l₂ := by
  obtain ⟨s, t, e⟩ := h
  exact ⟨a :: s, t, by rw [← e]; simp⟩

lemma prefix_append_cases (y A B : List Char) (h : y <+: A ++ B) :
    y <+: A ∨ ∃ b, y = A ++ b ∧ b <+: B ∧ A.length < y.length := by
  by_cases hlen : y.length ≤ A.length
  · left
    have he := List.prefix_iff_eq_take.mp h
    rw [List.take_append_eq_append_take] at he
    have h0 : y.length - A.length = 0 := by omega
    rw [h0, List.take_zero, List.append_nil] at he
    rw [he]
    exact List.take_prefix _ _
  · right
    push_neg at hlen
    have he := List.prefix_iff_eq_take.mp h
    rw [List.take_append_eq_append_take,
      List.take_of_length_le (by omega)] at he
    exact ⟨B.take (y.length - A.length), he, List.take_prefix _ _, hlen⟩

lemma infix_append_cases (y : List Char) : ∀ (A B : List Char),
    y <:+: A ++ B →
    y <:+: A ∨ y <:+: B ∨
      ∃ a b, a ≠ [] ∧ b ≠ [] ∧ a <:+ A ∧ b <+: B ∧ y = a ++ b := by
  intro A
  induction A with
  | nil =>
    intro B h
    right; left
    simpa using h
  | cons x A' ih =>
    intro B h
    rw [List.cons_append] at h
    rcases List.infix_cons_iff.mp h with hpre | hinf
    · rcases prefix_append_cases y (x :: A') B (by simpa using hpre) with
        h1 | ⟨b, hyb, hbB, hlt⟩
      · left
        exact h1.isInfix
      · right; right
        refine ⟨x :: A', b, by simp, ?_, List.suffix_rfl, hbB, hyb⟩
        intro hb
        rw [hb, List.append_nil] at hyb
        rw [hyb] at hlt
        exact absurd hlt (lt_irrefl _)
    · rcases ih B hinf with h1 | h2 | ⟨a, b, ha, hb, haA, hbB, hy⟩
      · left
        exact infix_cons_lift x y A' h1
      · right; left
        exact h2
      · right; right
        exact ⟨a, b, ha, hb, haA.trans (List.suffix_cons x A'), hbB, hy⟩

lemma replace_suffix_stable (p r : List Char) (hne : p ≠ [])
    (hlen : p.length < r.length) (H2 : ∀ y, y ≠ [] → y ≠ p → y <:+ p → ¬ y <+: r) :
    ∀ (n : Nat) (s : List Char), s.length ≤ n → ∀ y, y ≠ [] → y <:+ p →
      y <+: replaceList p r s → y <+: s := by
  intro n
  induction n with
  | zero =>
    intro s hs y hy _ hpre
    have hnil : s = [] := List.eq_nil_of_length_eq_zero (Nat.le_zero.mp hs)
    subst hnil
    rw [replaceList_nil] at hpre
    exact absurd (List.prefix_nil.mp hpre) hy
  | succ n ih =>
    intro s hs y hy hysuf hpre
    cases s with
    | nil =>
      rw [replaceList_nil] at hpre
      exact absurd (List.prefix_nil.mp hpre) hy
    | cons c cs =>
      have hcs : cs.length ≤ n := by
        simp only [List.length_cons] at hs
        omega
      rw [replaceList_cons] at hpre
      by_cases hmatch : p.isPrefixOf (c :: cs) = true
      · rw [if_pos ⟨hmatch, hne⟩] at hpre
        rcases prefix_append_cases y r _ hpre with h1 | ⟨b, hyb, _, hlt⟩
        · by_cases hyp : y = p
          · subst hyp
            exact List.isPrefixOf_iff_prefix.mp hmatch
          · exact absurd h1 (H2 y hy hyp hysuf)
        · have h2 := hysuf.length_le
          omega
      · rw [if_neg (fun hand => hmatch hand.1)] at hpre
        cases y with
        | nil => exact absurd rfl hy
        | cons d y' =>
          obtain ⟨hdc, hy'⟩ := List.cons_prefix_cons.mp hpre
          subst hdc
          by_cases hy'nil : y' = []
          · subst hy'nil
            exact ⟨cs, rfl⟩
          · have hy'suf : y' <:+ p := (List.suffix_cons d y').trans hysuf
            have hstep := ih cs hcs y' hy'nil hy'suf hy'
            exact List.cons_prefix_cons.mpr ⟨rfl, hstep⟩

lemma replace_no_occurrence (p r : List Char) (hne : p ≠ [])
    (hlen : p.length < r.length) (H1 : ¬ p <:+: r)
    (H2 : ∀ y, y ≠ [] → y ≠ p → y <:+ p → ¬ y <+: r)
    (H3 : ∀ z, z ≠ [] → z ≠ r → z <:+ r → ¬ z <+: p) :
    ∀ (n : Nat) (s : List Char), s.length ≤ n →
      ¬ p <:+: replaceList p r s := by
  intro n
  induction n with
  | zero =>
    intro s hs h
    have hnil : s = [] := List.eq_nil_of_length_eq_zero (Nat.le_zero.mp hs)
    subst hnil
    rw [replaceList_nil] at h
    exact hne (by simpa using h)
  | succ n ih =>
    intro s hs h
    cases s with
    | nil =>
      rw [replaceList_nil] at h
      exact hne (by simpa using h)
    | cons c cs =>
      have hcs : cs.length ≤ n := by
        simp only [List.length_cons] at hs
        omega
      rw [replaceList_cons] at h
      by_cases hmatch : p.isPrefixOf (c :: cs) = true
      · rw [if_pos ⟨hmatch, hne⟩] at h
        rcases infix_append_cases p r _ h with h1 | h2 |
          ⟨a, b, ha, hb, har, hbrest, heq⟩
        · exact H1 h1
        · refine ih (List.drop (p.length - 1) cs) ?_ h2
          simp only [List.length_drop]
          omega
        · have hap : a <+: p := ⟨b, heq.symm⟩
          have hanr : a ≠ r := by
            intro hr
            have hle := hap.length_le
            rw [hr] at hle
            omega
          exact H3 a ha hanr har hap
      · rw [if_neg (fun hand => hmatch hand.1)] at h
        rcases List.infix_cons_iff.mp h with hpre | hinf
        · obtain ⟨d, p', hp⟩ : ∃ d p', p = d :: p' := by
            cases p with
            | nil => exact absurd rfl hne
            | cons d p' => exact ⟨d, p', rfl⟩
          nth_rewrite 1 [hp] at hpre
          obtain ⟨hdc, hp'⟩ := List.cons_prefix_cons.mp hpre
          subst hdc
          by_cases hp'nil : p' = []
          · subst hp'nil
            apply hmatch
            rw [List.isPrefixOf_iff_prefix, hp]
            exact ⟨cs, rfl⟩
          · have hp'suf : p' <:+ p := by
              rw [hp]
              exact List.suffix_cons d p'
            have hstep := replace_suffix_stable p r hne hlen H2 cs.length cs
              le_rfl p' hp'nil hp'suf hp'
            apply hmatch
            rw [List.isPrefixOf_iff_prefix, hp]
            exact List.cons_prefix_cons.mpr ⟨rfl, hstep⟩
        · exact ih cs hcs hinf

lemma importPattern_no_occurrence (s : List Char) :
    ¬ importPattern.data <:+:
      replaceList importPattern.data importReplacement.data s := by
  have hd2 : ∀ i, i < importPattern.data.length → 0 < i →
      ¬ (importPattern.data.drop i <+: importReplacement.data) := by decide
  have hd3 : ∀ i, i < importReplacement.data.length → 0 < i →
      ¬ (importReplacement.data.drop i <+: importPattern.data) := by decide
  have hsufgen : ∀ (P R : List Char),
      (∀ i, i < P.length → 0 < i → ¬ (P.drop i <+: R)) →
      ∀ y, y ≠ [] → y ≠ P → y <:+ P → ¬ y <+: R := by
    intro P R hd y hy hyP hsuf
    have hidx := List.suffix_iff_eq_drop.mp hsuf
    have hylen : y.length ≤ P.length := hsuf.length_le
    have hypos : 0 < y.length := List.length_pos.mpr hy
    have hi0 : 0 < P.length - y.length := by
      rcases Nat.eq_zero_or_pos (P.length - y.length) with h0 | h0
      · rw [h0, List.drop_zero] at hidx
        exact absurd hidx hyP
      · exact h0
    rw [hidx]
    exact hd _ (by omega) hi0
  exact replace_no_occurrence importPattern.data importReplacement.data
    (by decide) (by decide) (by decide)
    (hsufgen importPattern.data importReplacement.data hd2)
    (hsufgen importReplacement.data importPattern.data hd3)
    s.length s le_rfl

/-! ## The pipeline touches the archive list only on `jar` success -/

lemma compile_to_dir_archives (env : Env) (k bd : String) (srcs : List String)
    (lv cp jcp out : String) (st : BuildState) :
    dirArchives (compile_to_dir env k bd srcs lv cp jcp out st) = st.archives := by
  unfold compile_to_dir
  cases hw : write_arg_file (kotlin_args lv out cp srcs) with
  | error e => rfl
  | ok content =>
    cases hk : run_process env [k, "-J-Xmx2G", "@" ++ bd ++ "/kotlin.args"] false with
    | error e => rfl
    | ok o =>
      cases hj : write_arg_file (java_args env out cp jcp srcs) with
      | error e => rfl
      | ok content2 =>
        cases hv : run_process env ["javac", "@" ++ bd ++ "/java.args"] false with
        | error e => rfl
        | ok o2 => rfl

lemma compile_to_jar_error_archives (env : Env) (k bd tsd : String)
    (srcs : List String) (lv cp jcp out : String) (st : BuildState)
    (h : isErr (compile_to_jar env k bd tsd srcs lv cp jcp out st) = true) :
    archivesAfter (compile_to_jar env k bd tsd srcs lv cp jcp out st) =
      st.archives := by
  have hdir := compile_to_dir_archives env k bd srcs lv cp jcp
    (bd ++ "/classes") (st.mkdirClean (bd ++ "/classes"))
  simp only [compile_to_jar] at h ⊢
  cases hc : compile_to_dir env k bd srcs lv cp jcp (bd ++ "/classes")
      (st.mkdirClean (bd ++ "/classes")) with
  | error e =>
    rw [hc] at hdir
    exact hdir
  | ok st2 =>
    rw [hc] at hdir
    cases hj : run_process env ["jar", "cf", out,
        "-C", bd ++ "/classes", ".",
        "-C", tsd ++ "/main/resources", "META-INF",
        "-C", tsd ++ "/main/resources", "com/github/codeql/extractor.name"] false with
    | error e =>
      exact hdir
    | ok o =>
      rw [hc, hj] at h
      simp [isErr] at h

/-! # Claim theorems -/

/-- C10: for every argument list, `write_arg_file` replaces every backslash
in every argument by a forward slash before writing, so the written file
(whether the write completed or the single-quote exception interrupted it)
never contains a backslash. -/
theorem C10_backslash_normalization (args : List String) :
    noBackslash (contentWritten (write_arg_file args)) = true :=
  write_go_noBackslash args "" rfl

/-- C5: when `shutil.which('kotlinc')` finds no Kotlin compiler on the
PATH, the program prints an error and exits with status 1 immediately: the
dispatch is never reached, and no archive and no scratch directory is
produced. -/
theorem C5_missing_kotlinc_exits_first (many_versions : List String)
    (single_version_default : String) (a : Args) :
    program none many_versions single_version_default a =
      .earlyExit "Cannot build the Kotlin extractor: no kotlinc found on your PATH" 1 ∧
    progArchives (program none many_versions single_version_default a) = [] ∧
    progScratchDirs (program none many_versions single_version_default a) = [] :=
  ⟨rfl, rfl, rfl⟩

/-- C4: invoking the program with `--single-version-embeddable` but without
`--single-version` (whatever the other flags) yields the usage error
`--single-version-embeddable requires --single-version` with exit code 1,
and no build target is processed: no archive and no scratch directory is
produced. -/
theorem C4_embeddable_without_version_usage_error (k : String)
    (many_versions : List String) (single_version_default : String)
    (dep : String) (many : Bool) :
    program (some k) many_versions single_version_default
        ⟨dep, many, none, true⟩ =
      .proceed (.usage "--single-version-embeddable requires --single-version" 1) ∧
    progArchives (program (some k) many_versions single_version_default
        ⟨dep, many, none, true⟩) = [] ∧
    progScratchDirs (program (some k) many_versions single_version_default
        ⟨dep, many, none, true⟩) = [] :=
  ⟨rfl, rfl, rfl⟩

/-- Counterexample to C9 as stated: with `--single-version ''` (the empty
string) together with `--many`, the flag is supplied, yet Python's
truthiness check on line 224 is false, the `elif args.many:` branch fires
and every registered version is built — not exactly one target for the
supplied version, for either packaging kind. -/
theorem C9_counterexample_empty_version :
    dispatch ["1.5.0"] "1.9.0" ⟨"deps", true, some "", false⟩ =
      .builds [("1.5.0", .standalone), ("1.5.0", .embeddable)] ∧
    dispatch ["1.5.0"] "1.9.0" ⟨"deps", true, some "", false⟩ ≠
      .builds [("", .standalone)] ∧
    dispatch ["1.5.0"] "1.9.0" ⟨"deps", true, some "", false⟩ ≠
      .builds [("", .embeddable)] := by
  refine ⟨rfl, ?_, ?_⟩
  · decide
  · decide

/-- C9 (amended): whenever `--single-version` is supplied with a non-empty
version string, the dispatch builds exactly one target for that version —
`--many` is silently ignored (the outcome with `--many` is the outcome
without it), and the combination is not rejected as a usage error.  (An
empty `--single-version` string is falsy in Python, so it falls through to
the `elif` chain instead of selecting a single build.) -/
theorem C9_single_version_ignores_many (many_versions : List String)
    (single_version_default dep : String) (many emb : Bool) (v : String)
    (hv : v ≠ "") :
    dispatch many_versions single_version_default ⟨dep, many, some v, emb⟩ =
      .builds [(v, if emb then .embeddable else .standalone)] ∧
    dispatch many_versions single_version_default ⟨dep, true, some v, emb⟩ =
      dispatch many_versions single_version_default ⟨dep, false, some v, emb⟩ ∧
    ∀ msg code,
      dispatch many_versions single_version_default ⟨dep, many, some v, emb⟩ ≠
        .usage msg code := by
  refine ⟨?_, ?_, ?_⟩
  · cases emb <;> simp [dispatch, hv]
  · cases emb <;> simp [dispatch, hv]
  · intro msg code
    cases emb <;> simp [dispatch, hv]

/-- C2: the embeddable transform rewrites every file content with
`str.replace` on the fixed import pattern, after which no occurrence of the
pattern remains in any source file (every occurrence was rewritten to the
shaded pattern); the transform used for the standalone kind
(`lambda srcs: None`) rewrites nothing: it is the identity on the files. -/
theorem C2_embeddable_transform (files : List (String × String)) :
    transform_to_embeddable files =
      files.map (fun f => (f.1, pyReplace f.2 importPattern importReplacement)) ∧
    (∀ f ∈ transform_to_embeddable files,
      ¬ (importPattern.data <:+: f.2.data)) ∧
    standaloneTransform files = files := by
  refine ⟨rfl, ?_, rfl⟩
  intro f hf
  obtain ⟨f₀, hf₀, rfl⟩ := List.mem_map.mp hf
  exact importPattern_no_occurrence f₀.2.data

/-- Witness for C2 on a concrete one-file tree: after the transform, the
pattern no longer occurs in the file's content. -/
theorem C2_embeddable_transform_witness :
    ¬ (importPattern.data <:+:
      (pyReplace "import com.intellij.psi.PsiElement\n" importPattern
        importReplacement).data) :=
  (C2_embeddable_transform
      [("X.kt", "import com.intellij.psi.PsiElement\n")]).2.1
    ("X.kt", pyReplace "import com.intellij.psi.PsiElement\n" importPattern
      importReplacement)
    (List.mem_cons_self _ _)

lemma lookupLast_single (p c : String) : lookupLast [(p, c)] p = some c := by
  show (if p = p then some c else none) = some c
  rw [if_pos rfl]

/-- C3: whenever an invoked external process exits nonzero, `run_process`
reports the working directory and the failing command line (and the
captured stdout/stderr when capture was requested) and re-raises, so the
pipeline propagates the error; a failed `compile_to_jar` leaves the
archive list without the expected output: no archive is created for the
failed target. -/
theorem C3_fatal_invocation_errors :
    (∀ (env : Env) (cmd : List String) (capture : Bool) (shellCmd : String),
      shellCmdLine env cmd = .ok shellCmd →
      (env.run cmd).exitCode ≠ 0 →
      ∃ report, run_process env cmd capture = .error (.called report) ∧
        ("In: " ++ env.cwd) ∈ report ∧
        ("Command failed: " ++ shellCmd) ∈ report ∧
        (capture = true →
          ("stdout output:\n" ++ (env.run cmd).stdout) ∈ report ∧
          ("stderr output:\n" ++ (env.run cmd).stderr) ∈ report)) ∧
    (∀ (env : Env) (k bd tsd : String) (srcs : List String)
        (lv cp jcp output : String) (st : BuildState),
      isErr (compile_to_jar env k bd tsd srcs lv cp jcp output st) = true →
      output ∉ st.archives →
      output ∉ archivesAfter
        (compile_to_jar env k bd tsd srcs lv cp jcp output st)) := by
  constructor
  · intro env cmd capture shellCmd hshell hexit
    refine ⟨["In: " ++ env.cwd, "Command failed: " ++ shellCmd] ++
      (if capture then
        ["stdout output:\n" ++ (env.run cmd).stdout,
         "stderr output:\n" ++ (env.run cmd).stderr]
       else []), ?_, ?_, ?_, ?_⟩
    · unfold run_process
      rw [hshell]
      simp only [if_neg hexit]
    · exact List.mem_append_left _ (List.mem_cons_self _ _)
    · exact List.mem_append_left _
        (List.mem_cons_of_mem _ (List.mem_cons_self _ _))
    · intro hcap
      subst hcap
      rw [if_pos rfl]
      exact ⟨List.mem_append_right _ (List.mem_cons_self _ _),
        List.mem_append_right _
          (List.mem_cons_of_mem _ (List.mem_cons_self _ _))⟩
  · intro env k bd tsd srcs lv cp jcp output st herr hna
    rw [compile_to_jar_error_archives env k bd tsd srcs lv cp jcp output st herr]
    exact hna

/-- Witness for C3: a compiler exiting with status 2 yields the full
report, and the failed pipeline creates no archive. -/
theorem C3_fatal_invocation_errors_witness :
    (∃ report,
      run_process ⟨false, "/w", fun _ => ⟨2, "out!", "err!"⟩⟩ ["kotlinc"] true =
        .error (.called report) ∧
      ("In: " ++ "/w") ∈ report ∧
      ("Command failed: " ++ shlex_join ["kotlinc"]) ∈ report ∧
      (true = true →
        ("stdout output:\n" ++ "out!") ∈ report ∧
        ("stderr output:\n" ++ "err!") ∈ report)) ∧
    "out.jar" ∉ archivesAfter
      (compile_to_jar ⟨false, "/w", fun _ => ⟨2, "out!", "err!"⟩⟩ "kotlinc"
        "bd" "tsd" ["A.kt"] "1.5" "cp" "jcp" "out.jar" ⟨[], [], []⟩) :=
  ⟨C3_fatal_invocation_errors.1 ⟨false, "/w", fun _ => ⟨2, "out!", "err!"⟩⟩
      ["kotlinc"] true (shlex_join ["kotlinc"]) rfl (by decide),
   C3_fatal_invocation_errors.2 ⟨false, "/w", fun _ => ⟨2, "out!", "err!"⟩⟩
      "kotlinc" "bd" "tsd" ["A.kt"] "1.5" "cp" "jcp" "out.jar" ⟨[], [], []⟩
      rfl (by simp)⟩

/-- C8: when `compile_to_jar` succeeds, exactly one archive is created
(the expected output is appended to the archive list and nothing else),
the `jar` invocation packages the class directory's contents plus the two
fixed resource paths (the `META-INF` manifest directory and the
`extractor.name` marker), the intermediate class directory is deleted
afterwards, and the marker file generated by `compile` names the output
artifact. -/
theorem C8_archiver (env : Env) (k bd tsd : String) (srcs : List String)
    (lv cp jcp output : String) (st st' : BuildState) (jarCmd : List String)
    (h : compile_to_jar env k bd tsd srcs lv cp jcp output st =
      .ok (st', jarCmd)) :
    st'.archives = st.archives ++ [output] ∧
    jarCmd = ["jar", "cf", output, "-C", bd ++ "/classes", ".",
      "-C", tsd ++ "/main/resources", "META-INF",
      "-C", tsd ++ "/main/resources", "com/github/codeql/extractor.name"] ∧
    (bd ++ "/classes") ∉ st'.dirs ∧
    ∀ stm : BuildState,
      lookupLast ((write_extractor_name stm tsd output).files)
        (tsd ++ "/main/resources/com/github/codeql/extractor.name") =
        some output := by
  have hdir := compile_to_dir_archives env k bd srcs lv cp jcp
    (bd ++ "/classes") (st.mkdirClean (bd ++ "/classes"))
  simp only [compile_to_jar] at h
  cases hc : compile_to_dir env k bd srcs lv cp jcp (bd ++ "/classes")
      (st.mkdirClean (bd ++ "/classes")) with
  | error e =>
    rw [hc] at h
    cases h
  | ok st2 =>
    rw [hc] at h hdir
    cases hj : run_process env ["jar", "cf", output,
        "-C", bd ++ "/classes", ".",
        "-C", tsd ++ "/main/resources", "META-INF",
        "-C", tsd ++ "/main/resources", "com/github/codeql/extractor.name"] false with
    | error e =>
      rw [hj] at h
      cases h
    | ok o =>
      rw [hj] at h
      simp only [Except.ok.injEq, Prod.mk.injEq] at h
      obtain ⟨hst, hcmd⟩ := h
      refine ⟨?_, hcmd.symm, ?_, ?_⟩
      · rw [← hst]
        show st2.archives ++ [output] = st.archives ++ [output]
        rw [show st2.archives = st.archives from hdir]
      · rw [← hst]
        intro hmem
        have := (List.mem_filter.mp hmem).2
        simp at this
      · intro stm
        show lookupLast (stm.files ++
          [(tsd ++ "/main/resources/com/github/codeql/extractor.name", output)]) _ =
          some output
        rw [lookupLast_append, lookupLast_single]
        rfl

/-- Witness for C8 on a concrete successful build: the archive list gains
exactly `out.jar` and the class directory is gone. -/
theorem C8_archiver_witness :
    ∃ st' jarCmd,
      compile_to_jar ⟨false, "/w", fun _ => ⟨0, "", ""⟩⟩ "kotlinc" "bd" "tsd"
        ["A.kt"] "1.5" "cp" "jcp" "out.jar" ⟨[], [], []⟩ = .ok (st', jarCmd) ∧
      st'.archives = ["out.jar"] ∧ ("bd" ++ "/classes") ∉ st'.dirs := by
  refine ⟨_, _, rfl, ?_, ?_⟩
  · have := (C8_archiver ⟨false, "/w", fun _ => ⟨0, "", ""⟩⟩ "kotlinc" "bd"
      "tsd" ["A.kt"] "1.5" "cp" "jcp" "out.jar" ⟨[], [], []⟩ _ _ rfl).1
    simpa using this
  · exact (C8_archiver ⟨false, "/w", fun _ => ⟨0, "", ""⟩⟩ "kotlinc" "bd"
      "tsd" ["A.kt"] "1.5" "cp" "jcp" "out.jar" ⟨[], [], []⟩ _ _ rfl).2.2.1

/-- C1: the overlay fold of `compile` iterates the registry's versions and
copies, overwrite-on-conflict, the override subtree of every registered
version `r ≤ v` into the initially empty `this_version` folder.
Consequently (i) versions above the target contribute nothing — the result
equals the result over the registry restricted to versions `≤ v`; (ii)
every file of the result originates in the override subtree of some
registered version `≤ v`; (iii) every file of an override subtree of a
registered version `≤ v` is present (though possibly with overwritten
content); and (iv) when the registry is ascending, the override closest to
the target that provides a path wins: if no registered version strictly
between `r` and the target (inclusive) provides the path, `r`'s content is
the final one. -/
theorem C1_overlay_resolution (versionsAsc : List Version)
    (overrides : Version → Option FileTree) (v : Version) :
    (overlayResult versionsAsc overrides v =
      overlayResult (versionsAsc.filter (fun r => r.lessThanOrEqual v))
        overrides v) ∧
    (∀ p c, lookupLast (overlayResult versionsAsc overrides v) p = some c →
      ∃ r ∈ versionsAsc, r.lessThanOrEqual v = true ∧
        ∃ d, overrides r = some d ∧ lookupLast d p = some c) ∧
    (∀ r d p, r ∈ versionsAsc → r.lessThanOrEqual v = true →
      overrides r = some d → (lookupLast d p).isSome = true →
      (lookupLast (overlayResult versionsAsc overrides v) p).isSome = true) ∧
    (∀ r d p c, versionsAsc.Pairwise (fun a b => a.lt b = true) →
      r ∈ versionsAsc → r.lessThanOrEqual v = true → overrides r = some d →
      lookupLast d p = some c →
      (∀ r' ∈ versionsAsc, r.lt r' = true → r'.lessThanOrEqual v = true →
        ∀ d', overrides r' = some d' → lookupLast d' p = none) →
      lookupLast (overlayResult versionsAsc overrides v) p = some c) := by
  refine ⟨overlay_filter versionsAsc overrides v,
    fun p c h => overlay_provenance versionsAsc overrides v p c h,
    fun r d p hr hle hov hd =>
      overlay_presence versionsAsc overrides v r d p hr hle hov hd,
    fun r d p c hsort hr hle hov hd hnone => ?_⟩
  obtain ⟨l₁, l₂, rfl⟩ := List.append_of_mem hr
  have hsort2 : (r :: l₂).Pairwise (fun a b => a.lt b = true) :=
    hsort.sublist (List.sublist_append_right l₁ (r :: l₂))
  have hlt : ∀ r' ∈ l₂, r.lt r' = true :=
    (List.pairwise_cons.mp hsort2).1
  refine overlay_last_wins_pos l₁ l₂ overrides v r d p c hle hov hd ?_
  intro r' hr' hle' d' hov'
  exact hnone r' (List.mem_append_right l₁ (List.mem_cons_of_mem r hr'))
    (hlt r' hr') hle' d' hov'

/-- Witness for C1 at a concrete registry of three versions with target
1.8.0: the 1.7.0 override of `A.kt` wins over the 1.5.0 one, and the 1.9.0
override is ignored. -/
theorem C1_overlay_resolution_witness :
    lookupLast
      (overlayResult [⟨1, 5, 0⟩, ⟨1, 7, 0⟩, ⟨1, 9, 0⟩]
        (fun r =>
          if r = ⟨1, 5, 0⟩ then some [("A.kt", "old"), ("B.kt", "base")]
          else if r = ⟨1, 7, 0⟩ then some [("A.kt", "new")]
          else if r = ⟨1, 9, 0⟩ then some [("A.kt", "late")]
          else none)
        ⟨1, 8, 0⟩) "A.kt" = some "new" := by
  refine (C1_overlay_resolution [⟨1, 5, 0⟩, ⟨1, 7, 0⟩, ⟨1, 9, 0⟩] _
    ⟨1, 8, 0⟩).2.2.2 ⟨1, 7, 0⟩ [("A.kt", "new")] "A.kt" "new"
    (by decide) (by decide) (by decide) rfl rfl ?_
  intro r' hr' hlt hle d' hov'
  simp only [List.mem_cons, List.not_mem_nil, or_false] at hr'
  rcases hr' with rfl | rfl | rfl
  · exact absurd hlt (by decide)
  · exact absurd hlt (by decide)
  · exact absurd hle (by decide)

/-- C7 (amended): for every argument list in which no argument contains a
single quote, `write_arg_file` writes one single-quoted entry per argument,
each terminated by a newline, and — provided no argument itself contains a
newline character — the lines of the written file are exactly the
arguments, each enclosed in single quotes (with backslashes normalized to
slashes); if some argument contains a single quote, the write raises
`Single quote in argument` at the first such argument, having written
exactly the entries of the preceding arguments. -/
theorem C7_arg_file_format (args : List String) :
    ((∀ a ∈ args, a.data.contains '\'' = false) →
      write_arg_file args =
        .ok (args.foldr
          (fun a acc => "'" ++ pyReplace a "\\" "/" ++ "'\n" ++ acc) "") ∧
      ((∀ a ∈ args, a.data.contains '\n' = false) →
        splitNl (contentWritten (write_arg_file args)).data =
          args.map (fun a => ("'" ++ pyReplace a "\\" "/" ++ "'").data) ++ [[]])) ∧
    (∀ l a r, args = l ++ a :: r →
      (∀ b ∈ l, b.data.contains '\'' = false) →
      a.data.contains '\'' = true →
      write_arg_file args =
        .error ("Single quote in argument: " ++ a,
          l.foldr (fun b acc => "'" ++ pyReplace b "\\" "/" ++ "'\n" ++ acc) "")) := by
  constructor
  · intro hq
    have hok : write_arg_file args =
        .ok (args.foldr
          (fun a acc => "'" ++ pyReplace a "\\" "/" ++ "'\n" ++ acc) "") := by
      rw [write_arg_file, write_go_ok args "" hq, String.empty_append]
    refine ⟨hok, fun hn => ?_⟩
    rw [hok]
    exact lines_of_content args hn
  · intro l a r hsplit hl ha
    subst hsplit
    rw [write_arg_file, write_go_error l "" a r hl ha, String.empty_append]

/-- Counterexample to C7 as stated: an argument containing a newline is
written without exception, but does not end up on one single line — the
written file has three lines, not the two (quoted argument, then the empty
final line) the claim asks for. -/
theorem C7_counterexample_newline_arg :
    write_arg_file ["a\nb"] = .ok "'a\nb'\n" ∧
    splitNl (contentWritten (write_arg_file ["a\nb"])).data ≠
      (["a\nb"].map (fun a => ("'" ++ pyReplace a "\\" "/" ++ "'").data) ++ [[]]) := by
  constructor
  · rfl
  · decide

/-- Witness for C7 at concrete inputs: a quote-free, newline-free argument
list is written one quoted argument per line, and a list whose second
argument contains a quote raises after writing the first argument's line. -/
theorem C7_arg_file_format_witness :
    write_arg_file ["-d", "C:\\out"] =
      .ok (["-d", "C:\\out"].foldr
        (fun a acc => "'" ++ pyReplace a "\\" "/" ++ "'\n" ++ acc) "") ∧
    splitNl (contentWritten (write_arg_file ["-d", "C:\\out"])).data =
      (["-d", "C:\\out"].map
        (fun a => ("'" ++ pyReplace a "\\" "/" ++ "'").data) ++ [[]]) ∧
    write_arg_file ["ok", "it's"] =
      .error ("Single quote in argument: " ++ "it's",
        ["ok"].foldr (fun b acc => "'" ++ pyReplace b "\\" "/" ++ "'\n" ++ acc) "") :=
  ⟨((C7_arg_file_format ["-d", "C:\\out"]).1 (by decide)).1,
   ((C7_arg_file_format ["-d", "C:\\out"]).1 (by decide)).2 (by decide),
   (C7_arg_file_format ["ok", "it's"]).2 ["ok"] "it's" [] rfl (by decide)
     (by decide)⟩

/-- Counterexample to C6 as stated: with `--single-version ''` (the empty
string is an explicit, but falsy, version) and `--many`, the program does
not produce the one archive named from that version and `standalone`: the
`elif` chain fires and every registered version is built twice. -/
theorem C6_counterexample_empty_version :
    outcomeArchives (dispatch ["1.5.0"] "1.9.0" ⟨"deps", true, some "", false⟩) =
      ["1.5.0"].flatMap namesOf ∧
    outcomeArchives (dispatch ["1.5.0"] "1.9.0" ⟨"deps", true, some "", false⟩) ≠
      [outputName .standalone ""] := by
  refine ⟨rfl, ?_⟩
  decide

/-- C6 (amended): in `--many` mode the dispatch builds, for every version
of the registry's list, exactly two archives — one standalone and one
embeddable, each named deterministically from the packaging kind and the
version string; an explicit single non-empty standalone version yields
exactly the one archive named from that version and `standalone`.  (An
empty `--single-version` string is falsy in Python and falls through to
the `elif` chain instead of selecting a single build.) -/
theorem C6_build_many_output (many_versions : List String)
    (single_version_default dep : String) (v : String) (manyFlag : Bool) :
    outcomeArchives
        (dispatch many_versions single_version_default ⟨dep, true, none, false⟩) =
      many_versions.flatMap namesOf ∧
    (many_versions.Nodup → v ∈ many_versions →
      (outcomeArchives (dispatch many_versions single_version_default
          ⟨dep, true, none, false⟩)).count (outputName .standalone v) = 1 ∧
      (outcomeArchives (dispatch many_versions single_version_default
          ⟨dep, true, none, false⟩)).count (outputName .embeddable v) = 1) ∧
    (v ≠ "" →
      outcomeArchives (dispatch many_versions single_version_default
        ⟨dep, manyFlag, some v, false⟩) = [outputName .standalone v]) := by
  have hmain : outcomeArchives
      (dispatch many_versions single_version_default ⟨dep, true, none, false⟩) =
      many_versions.flatMap namesOf := by
    simp [dispatch, dispatchFallthrough, outcomeArchives, List.map_flatMap]
    rfl
  refine ⟨hmain, fun hnd hv => ?_, fun hv => ?_⟩
  · rw [hmain]
    exact count_names_one v many_versions hnd hv
  · simp [dispatch, hv, outcomeArchives]

/-- Witness for C6 at a concrete registry with two versions, and at a
concrete non-empty single version. -/
theorem C6_build_many_output_witness :
    ((outcomeArchives (dispatch ["1.5.0", "1.9.20"] "1.9.20"
        ⟨"deps", true, none, false⟩)).count
      (outputName .standalone "1.5.0") = 1 ∧
    (outcomeArchives (dispatch ["1.5.0", "1.9.20"] "1.9.20"
        ⟨"deps", true, none, false⟩)).count
      (outputName .embeddable "1.5.0") = 1) ∧
    outcomeArchives (dispatch ["1.5.0", "1.9.20"] "1.9.20"
        ⟨"deps", true, some "1.5.0", false⟩) =
      [outputName .standalone "1.5.0"] :=
  ⟨(C6_build_many_output ["1.5.0", "1.9.20"] "1.9.20" "deps" "1.5.0" true).2.1
      (by decide) (by decide),
   (C6_build_many_output ["1.5.0", "1.9.20"] "1.9.20" "deps" "1.5.0" true).2.2
      (by decide)⟩

/-- Witness for C9 at a concrete invocation: `--many --single-version
1.7.0` is not a usage error. -/
theorem C9_single_version_ignores_many_witness :
    dispatch ["1.9.0"] "1.9.0" ⟨"deps", true, some "1.7.0", false⟩ ≠
      .usage "--single-version-embeddable requires --single-version" 1 :=
  (C9_single_version_ignores_many ["1.9.0"] "1.9.0" "deps" true false
    "1.7.0" (by decide)).2.2 _ _

end KotlinBuild
